import Mathlib

/-!
# Verification of the turkish-lm-tuner dataset normalization layer

A shallow embedding of `src/tr_datasets.py`. Python strings are modelled as
`List Char`; the Python string operations the adapters use (`split`, `join`,
`replace`, `strip`, `index`, `startswith`) are defined below with Python's
semantics (e.g. `split` keeps empty chunks, `replace` substitutes
non-overlapping occurrences left to right). Python dicts that the adapters
build incrementally are modelled as insertion-ordered association lists,
matching CPython's ordered-dict semantics that the serializers rely on.

Out-of-range indexing or a missing dict key raises in Python; where the
source indexes a list or dict unconditionally (`el_split[1]`,
`pos_d_tr[pos]`, `answers[0]`), the model supplies a default value. No
theorem below exercises those positions: every claim's input keeps the
accesses in range, so the model and the source agree on all inputs used.
-/

namespace TrTuner

/-- Python strings, modelled as lists of characters. -/
abbrev Str := List Char

/-- Coerce a Lean string literal into the model representation. -/
def str (s : String) : Str := s.data

/-- The whitespace characters `str.strip` removes (the data only ever
carries ASCII whitespace). -/
def isSpaceChar (c : Char) : Bool :=
  c = ' ' || c = '\t' || c = '\n' || c = '\r'

/-- Python `s.startswith(p)`: `p` is a prefix of `s`. -/
def isPre : Str → Str → Bool
  | [], _ => true
  | _ :: _, [] => false
  | a :: as, b :: bs => a == b && isPre as bs

/-- Worker for Python `s.split(sep)`: `acc` is the chunk being accumulated,
`skip` counts separator characters still to be consumed after a match. -/
def splitAcc (sep : Str) : Str → Str → Nat → List Str
  | [], acc, _ => [acc]
  | _ :: rest, acc, Nat.succ k => splitAcc sep rest acc k
  | c :: rest, acc, 0 =>
    if !sep.isEmpty && isPre sep (c :: rest) then
      acc :: splitAcc sep rest [] (sep.length - 1)
    else
      splitAcc sep rest (acc ++ [c]) 0

/-- Python `s.split(sep)` for the non-empty separators the source uses:
splits at every non-overlapping occurrence, keeping empty chunks, so that
`"".split(" ") = [""]` and `"a||b".split("|") = ["a", "", "b"]`. -/
def pySplitOn (sep s : Str) : List Str :=
  if sep.isEmpty then [s] else splitAcc sep s [] 0

/-- Worker for Python `s.replace(old, new)` with the same `skip` device. -/
def replAcc (old new : Str) : Str → Nat → Str
  | [], _ => []
  | _ :: rest, Nat.succ k => replAcc old new rest k
  | c :: rest, 0 =>
    if !old.isEmpty && isPre old (c :: rest) then
      new ++ replAcc old new rest (old.length - 1)
    else
      c :: replAcc old new rest 0

/-- Python `s.replace(old, new)` for non-empty `old`: substitutes every
non-overlapping occurrence, scanning left to right. -/
def pyReplace (old new s : Str) : Str := replAcc old new s 0

/-- Python `s.strip()`. -/
def pyStrip (s : Str) : Str :=
  ((s.dropWhile isSpaceChar).reverse.dropWhile isSpaceChar).reverse

/-- Python `sep.join(xs)`. -/
def pyJoin (sep : Str) : List Str → Str
  | [] => []
  | [x] => x
  | x :: y :: ys => x ++ sep ++ pyJoin sep (y :: ys)

/-- Python `l.index(x)` on a list of strings: position of the first
occurrence. Total model: returns `l.length` when `x` is absent; the source
only calls it on members. -/
def pyIndexL (x : Str) : List Str → Nat
  | [] => 0
  | y :: ys => if y = x then 0 else pyIndexL x ys + 1

/-- Association-list lookup with a default, used for the fixed label
tables (`d.get(k, default)`, and `d[k]` where the source guarantees the
key is present). -/
def lookupD {α β : Type} [DecidableEq α] : List (α × β) → α → β → β
  | [], _, dflt => dflt
  | (a, b) :: rest, k, dflt => if a = k then b else lookupD rest k dflt

/-- The incrementally built `tag_dict`: entity-type name to list of phrase
texts, insertion order preserved. -/
abbrev TagDict := List (Str × List Str)

/-- Membership test `k in tag_dict`. -/
def dictHas (d : TagDict) (k : Str) : Bool := d.any (fun p => p.1 == k)

/-- `if k not in d: d[k] = []` followed by `d[k].append(v)`. -/
def dictAppend (d : TagDict) (k v : Str) : TagDict :=
  if dictHas d k then d.map (fun p => if p.1 = k then (p.1, p.2 ++ [v]) else p)
  else d ++ [(k, [v])]

/-- The in-place dedup loop (`new_l = []; for el: if el not in new_l:
new_l.append(el)`) run over both NER serializers' phrase lists. -/
def dedupAcc (new_l : List Str) : List Str → List Str
  | [] => new_l
  | el :: rest =>
    if el ∈ new_l then dedupAcc new_l rest else dedupAcc (new_l ++ [el]) rest

/-- First-occurrence deduplication of a phrase list. -/
def pyDedup (l : List Str) : List Str := dedupAcc [] l

/-! ## The NER component (`NERDataset`, `WikiANNDataset`, `MilliyetNERDataset`) -/

/-- `NERDataset.NER_label_translation_d`. -/
def NER_label_translation_d : List (Str × Str) :=
  [(str "Kişi", str "PER"), (str "Yer", str "LOC"), (str "Kuruluş", str "ORG")]

/-- `NERDataset.NER_label_int_dict`. -/
def NER_label_int_dict : List (Str × Nat) :=
  [(str "PER", 1), (str "LOC", 3), (str "ORG", 5)]

/-- The double lookup
`NER_label_int_dict[NER_label_translation_d[tag_type]]` the deserializer
performs at each assignment. -/
def nerLabelOf (tag_type : Str) : Nat :=
  lookupD NER_label_int_dict (lookupD NER_label_translation_d tag_type []) 0

/-- Inner loop of `NERDataset.postprocess_data` over the phrases of one
`Type: phrase, phrase` group. `tokens` are the space-split units of the
generated string itself (the deserializer has no access to the input
sentence). -/
def nerPhraseStep (tokens : List Str) (tag_type : Str)
    (label_l : List Nat) (el : Str) : List Nat :=
  if pyStrip el = [] then label_l
  else
    let es := pySplitOn (str " ") el
    if es.headD [] ∈ tokens ∧ es.getLastD [] ∈ tokens then
      if es.length = 1 then
        label_l.set (pyIndexL (es.headD []) tokens) (nerLabelOf tag_type)
      else
        let start := pyIndexL (es.headD []) tokens
        let stop := pyIndexL (es.getLastD []) tokens
        let label_l := label_l.set start (nerLabelOf tag_type)
        (List.range' (start + 1) (stop - start)).foldl
          (fun l i => l.set i (nerLabelOf tag_type + 1)) label_l
    else label_l

/-- `NERDataset.postprocess_data` on a single generated string (the
source's loop variable `example`). -/
def nerPostprocessOne (exampleStr : Str) : List Nat :=
  let ex := pyStrip exampleStr
  let tokens := pySplitOn (str " ") ex
  let label0 : List Nat := List.replicate tokens.length 0
  if ex = str "Bulunamadı." then label0
  else
    (pySplitOn (str " | ") ex).foldl (fun label_l type_el =>
      let el_split := pySplitOn (str ": ") type_el
      let tag_type := el_split.headD []
      let el_l := pySplitOn (str ", ") (el_split.getD 1 [])
      el_l.foldl (nerPhraseStep tokens tag_type) label_l) label0

/-- `NERDataset.postprocess_data` over a batch of generated strings. -/
def nerPostprocess (examples : List Str) : List (List Nat) :=
  examples.map nerPostprocessOne

/-- One step of the `WikiANNDataset.preprocess_data` span loop. The state
is the current `tag_type` (which persists across spans) and the `tag_dict`
under construction. -/
def wikiannSpanStep (st : Str × TagDict) (span : Str) : Str × TagDict :=
  let span := pyReplace (str "ORG: ") (str "Kuruluş: ")
    (pyReplace (str "LOC: ") (str "Yer: ")
      (pyReplace (str "PER: ") (str "Kişi: ") span))
  let tag_type :=
    if isPre (str "Kişi: ") span then str "PERSON"
    else if isPre (str "Yer: ") span then str "LOCATION"
    else if isPre (str "Kuruluş: ") span then str "ORGANIZATION"
    else st.1
  let text := pyReplace (str "Kuruluş: ") []
    (pyReplace (str "Yer: ") [] (pyReplace (str "Kişi: ") [] span))
  (tag_type, dictAppend st.2 tag_type text)

/-- Rendering shared by both serializers: `Type: phrase, phrase | Type:
phrase` from the (insertion-ordered) `tag_dict`. -/
def renderTagDict (d : TagDict) : Str :=
  pyJoin (str " | ")
    (d.map (fun p => p.1 ++ str ": " ++ pyJoin (str ", ") p.2))

/-- The chained `.replace('PERSON: ', 'Kişi: ')...` both serializers apply
to the rendered target. -/
def localizeTypes (s : Str) : Str :=
  pyReplace (str "ORGANIZATION: ") (str "Kuruluş: ")
    (pyReplace (str "LOCATION: ") (str "Yer: ")
      (pyReplace (str "PERSON: ") (str "Kişi: ") s))

/-- `WikiANNDataset.preprocess_data` on one `(tokens, spans)` example,
returning the `(input_text, target_text)` pair. -/
def wikiannPreprocessOne (tokens spans : List Str) : Str × Str :=
  let st := spans.foldl wikiannSpanStep ([], [])
  let tag_dict := st.2.map (fun p => (p.1, pyDedup p.2))
  let input_text := pyStrip (pyJoin (str " ") tokens)
  let target_text := pyStrip (localizeTypes (renderTagDict tag_dict))
  let target_text := if target_text = [] then str "Bulunamadı." else target_text
  (input_text, target_text)

/-- One step of the `MilliyetNERDataset.preprocess_data` tag loop. The
state is `(token_str, tag_type, tag_dict)`; `j` is the enumeration index.
Note the source's `tokens[tags.index(tag)]` in the `I-` branch: the token
appended is the one at the FIRST position carrying this tag, not at `j`. -/
def milliyetStep (tokens tags : List Str) (st : Str × Str × TagDict)
    (j : Nat) (tag : Str) : Str × Str × TagDict :=
  let token_str := st.1
  let tag_type := st.2.1
  let tag_dict := st.2.2
  if tag = str "O" then
    let tag_dict :=
      if token_str ≠ [] then dictAppend tag_dict tag_type token_str else tag_dict
    ([], [], tag_dict)
  else if isPre (str "B-") tag then
    let tag_dict :=
      if token_str ≠ [] then dictAppend tag_dict tag_type token_str else tag_dict
    (tokens.getD j [], tag.drop 2, tag_dict)
  else if isPre (str "I-") tag then
    (token_str ++ ' ' :: tokens.getD (pyIndexL tag tags) [], tag_type, tag_dict)
  else st

/-- `MilliyetNERDataset.preprocess_data` on one `(tokens, tags)` example,
returning the `(input_text, target_text)` pair. -/
def milliyetPreprocessOne (tokens tags : List Str) : Str × Str :=
  let st := tags.enum.foldl
    (fun st p => milliyetStep tokens tags st p.1 p.2) ([], [], [])
  let tag_dict :=
    if st.1 ≠ [] then dictAppend st.2.2 st.2.1 st.1 else st.2.2
  let tag_dict := tag_dict.map (fun p => (p.1, pyDedup p.2))
  let input_text := pyStrip (pyJoin (str " ") tokens)
  let target_text := pyStrip (localizeTypes (renderTagDict tag_dict))
  let target_text := if target_text = [] then str "Bulunamadı." else target_text
  (input_text, target_text)

/-! ## The QA/QG extractors (`ExamsDataset`, `TQUADDataset`, `MKQADataset`) -/

/-- The uniform `(input_text, target_text)` batch every preprocessor
returns (`{"input_text": [...], "target_text": [...]}`). -/
structure UniformBatch where
  input_text : List Str
  target_text : List Str
deriving DecidableEq

/-- Swapping the roles of input and target in a uniform batch. -/
def swapBatch (b : UniformBatch) : UniformBatch :=
  ⟨b.target_text, b.input_text⟩

/-- The `choices` field of an exam question: parallel label/text arrays. -/
structure ExamsChoices where
  label : List Str
  text : List Str
deriving DecidableEq

/-- An exam question: stem plus choices. -/
structure ExamsQuestion where
  stem : Str
  choices : ExamsChoices
deriving DecidableEq

/-- The loop body of `ExamsDataset.preprocess_question_answering` over
`zip(examples["question"], examples["answerKey"])`, as the list of
`(input, target)` pairs appended (the source appends to two parallel
lists). -/
def examsPairsQA : List (ExamsQuestion × Str) → List (Str × Str)
  | [] => []
  | (question, answer_key) :: rest =>
    let question_str := question.stem
    let choices := question.choices
    if answer_key ∉ choices.label then
      (question_str, []) :: examsPairsQA rest
    else
      let answer_order := pyIndexL answer_key choices.label
      let answer := choices.text.getD answer_order []
      if answer = [] then examsPairsQA rest
      else (question_str, answer) :: examsPairsQA rest

/-- The loop body of `ExamsDataset.preprocess_question_generation`, which
duplicates the QA loop verbatim in the source. -/
def examsPairsQG : List (ExamsQuestion × Str) → List (Str × Str)
  | [] => []
  | (question, answer_key) :: rest =>
    let question_str := question.stem
    let choices := question.choices
    if answer_key ∉ choices.label then
      (question_str, []) :: examsPairsQG rest
    else
      let answer_order := pyIndexL answer_key choices.label
      let answer := choices.text.getD answer_order []
      if answer = [] then examsPairsQG rest
      else (question_str, answer) :: examsPairsQG rest

/-- `ExamsDataset.preprocess_question_answering`: returns
`{"input_text": input_texts, "target_text": target_texts}`. -/
def examsQA (questions : List ExamsQuestion) (answerKeys : List Str) :
    UniformBatch :=
  let ps := examsPairsQA (questions.zip answerKeys)
  ⟨ps.map Prod.fst, ps.map Prod.snd⟩

/-- `ExamsDataset.preprocess_question_generation`: same loop, but returns
`{"input_text": target_texts, "target_text": input_texts}`. -/
def examsQG (questions : List ExamsQuestion) (answerKeys : List Str) :
    UniformBatch :=
  let ps := examsPairsQG (questions.zip answerKeys)
  ⟨ps.map Prod.snd, ps.map Prod.fst⟩

/-- One answer record of the TQuAD nesting (`{'text': ...}`). -/
structure TquadAnswer where
  text : Str
deriving DecidableEq

/-- One qa record of the TQuAD nesting. -/
structure TquadQA where
  question : Str
  answers : List TquadAnswer
deriving DecidableEq

/-- One paragraph of the TQuAD nesting. -/
structure TquadParagraph where
  context : Str
  qas : List TquadQA
deriving DecidableEq

/-- The `(input, target)` pairs `TQUADDataset.preprocess_question_answering`
appends: input `"Bağlam: {context} | Soru: {question}"`, target the first
answer. -/
def tquadPairsQA (paragraphsList : List (List TquadParagraph)) :
    List (Str × Str) :=
  paragraphsList.flatMap (fun paragraphs =>
    paragraphs.flatMap (fun paragraph =>
      paragraph.qas.map (fun qa =>
        let context := pyStrip paragraph.context
        let question := pyStrip qa.question
        let answer := pyStrip (qa.answers.getD 0 ⟨[]⟩).text
        (str "Bağlam: " ++ context ++ str " | Soru: " ++ question, answer))))

/-- The `(input, target)` pairs `TQUADDataset.preprocess_question_generation`
appends: input `"Bağlam: {context} | Cevap: {answer}"`, target the
question — a re-rendering, not a swap of the QA pair. -/
def tquadPairsQG (paragraphsList : List (List TquadParagraph)) :
    List (Str × Str) :=
  paragraphsList.flatMap (fun paragraphs =>
    paragraphs.flatMap (fun paragraph =>
      paragraph.qas.map (fun qa =>
        let context := pyStrip paragraph.context
        let question := pyStrip qa.question
        let answer := pyStrip (qa.answers.getD 0 ⟨[]⟩).text
        (str "Bağlam: " ++ context ++ str " | Cevap: " ++ answer, question))))

/-- `TQUADDataset.preprocess_question_answering` as a uniform batch. -/
def tquadQA (paragraphsList : List (List TquadParagraph)) : UniformBatch :=
  let ps := tquadPairsQA paragraphsList
  ⟨ps.map Prod.fst, ps.map Prod.snd⟩

/-- `TQUADDataset.preprocess_question_generation` as a uniform batch. -/
def tquadQG (paragraphsList : List (List TquadParagraph)) : UniformBatch :=
  let ps := tquadPairsQG paragraphsList
  ⟨ps.map Prod.fst, ps.map Prod.snd⟩

/-- Modelled from the spec, for the refinement comparison of claim C4
only: the `(context, question, first answer)` triples that both TQuAD
preprocessors extract with identical traversal logic. The two theorems
relating `tquadPairsQA`/`tquadPairsQG` to this definition express that the
QG variant shares the QA extraction and differs only in rendering. -/
def tquadTriples (paragraphsList : List (List TquadParagraph)) :
    List (Str × Str × Str) :=
  paragraphsList.flatMap (fun paragraphs =>
    paragraphs.flatMap (fun paragraph =>
      paragraph.qas.map (fun qa =>
        (pyStrip paragraph.context, pyStrip qa.question,
          pyStrip (qa.answers.getD 0 ⟨[]⟩).text))))

/-- The per-locale query dict of MKQA (`queries['tr']`). -/
structure MkqaQueries where
  tr : Str
deriving DecidableEq

/-- One MKQA answer record (`{'text': ...}`). -/
structure MkqaAnswer where
  text : Str
deriving DecidableEq

/-- The per-locale answer dict of MKQA (`answers['tr']`). -/
structure MkqaAnswers where
  tr : List MkqaAnswer
deriving DecidableEq

/-- Loop body of `MKQADataset.preprocess_question_answering` over
`zip(examples['queries'], examples['answers'])`. -/
def mkqaPairsQA : List (MkqaQueries × MkqaAnswers) → List (Str × Str)
  | [] => []
  | (queries, answers) :: rest =>
    let query := queries.tr
    let answer := (answers.tr.getD 0 ⟨[]⟩).text
    if answer = [] then (query, []) :: mkqaPairsQA rest
    else (query, answer) :: mkqaPairsQA rest

/-- Loop body of `MKQADataset.preprocess_question_generation`. -/
def mkqaPairsQG : List (MkqaQueries × MkqaAnswers) → List (Str × Str)
  | [] => []
  | (queries, answers) :: rest =>
    let query := queries.tr
    let answer := (answers.tr.getD 0 ⟨[]⟩).text
    if answer = [] then ([], query) :: mkqaPairsQG rest
    else (answer, query) :: mkqaPairsQG rest

/-- `MKQADataset.preprocess_question_answering` as a uniform batch. -/
def mkqaQA (queries : List MkqaQueries) (answers : List MkqaAnswers) :
    UniformBatch :=
  let ps := mkqaPairsQA (queries.zip answers)
  ⟨ps.map Prod.fst, ps.map Prod.snd⟩

/-- `MKQADataset.preprocess_question_generation` as a uniform batch. -/
def mkqaQG (queries : List MkqaQueries) (answers : List MkqaAnswers) :
    UniformBatch :=
  let ps := mkqaPairsQG (queries.zip answers)
  ⟨ps.map Prod.fst, ps.map Prod.snd⟩

/-! ## The label codecs (`NLI_TRDataset`, `ClassificationDataset` family) -/

/-- `NLI_TRDataset.IN_LABEL_DICT`. -/
def nliIN : List (Int × Str) :=
  [(0, str "gereklilik"), (1, str "nötr"), (2, str "çelişki")]

/-- `NLI_TRDataset.OUT_LABEL_DICT` (`{v: k for k, v in IN.items()}`). -/
def nliOUT : List (Str × Int) := nliIN.map (fun p => (p.2, p.1))

/-- The forward lookup `IN_LABEL_DICT[ex]` of `NLI_TRDataset.preprocess_data`. -/
def nliEncode (c : Int) : Str := lookupD nliIN c []

/-- `NLI_TRDataset.postprocess_data` on one generated string:
`OUT_LABEL_DICT.get(ex.strip(), -1)`. -/
def nliPostprocessOne (s : Str) : Int := lookupD nliOUT (pyStrip s) (-1)

/-- `ProductDataset.IN_LABEL_DICT`. -/
def productIN : List (Int × Str) := [(0, str "negatif"), (1, str "pozitif")]

/-- `ProductDataset`'s inherited `OUT_LABEL_DICT`. -/
def productOUT : List (Str × Int) := productIN.map (fun p => (p.2, p.1))

/-- The forward lookup `IN_LABEL_DICT[ex]` of `ProductDataset.preprocess_data`. -/
def productEncode (c : Int) : Str := lookupD productIN c []

/-- `ClassificationDataset.postprocess_data` specialised to `ProductDataset`. -/
def productPostprocessOne (s : Str) : Int := lookupD productOUT (pyStrip s) (-1)

/-- `TTC4900Dataset.IN_LABEL_DICT`. -/
def ttcIN : List (Int × Str) :=
  [(0, str "siyaset"), (1, str "dünya"), (2, str "ekonomi"), (3, str "kültür"),
    (4, str "sağlık"), (5, str "spor"), (6, str "teknoloji")]

/-- `TTC4900Dataset`'s inherited `OUT_LABEL_DICT`. -/
def ttcOUT : List (Str × Int) := ttcIN.map (fun p => (p.2, p.1))

/-- The forward lookup `IN_LABEL_DICT[ex]` of `TTC4900Dataset.preprocess_data`. -/
def ttcEncode (c : Int) : Str := lookupD ttcIN c []

/-- `ClassificationDataset.postprocess_data` specialised to `TTC4900Dataset`. -/
def ttcPostprocessOne (s : Str) : Int := lookupD ttcOUT (pyStrip s) (-1)

/-! ## `NLI_TRDataset.load_dataset` -/

/-- One NLI example as far as the loader is concerned. -/
structure NLIExample where
  premise : Str
  hypothesis : Str
  label : Int
deriving DecidableEq

/-- `NLI_TRDataset.load_dataset`. `hub name config split` stands for the
external `datasets.load_dataset(name, config, split=split)` (the remote
hub is outside the embedding, so it is a parameter). The combined
`"nli_tr"` case recurses into the two constituent configurations; every
branch ends in the same `filter(lambda example: example["label"] != -1)`. -/
def nliLoadDataset (hub : Str → Str → Option Str → List NLIExample)
    (dataset_name : Str) (split : Option Str) : List NLIExample :=
  let dataset :=
    if h : dataset_name = str "nli_tr" then
      if split = some (str "train") then
        nliLoadDataset hub (str "multinli_tr") split
          ++ nliLoadDataset hub (str "snli_tr") split
      else
        nliLoadDataset hub (str "snli_tr") split
    else if dataset_name = str "snli_tr" then
      hub (str "nli_tr") dataset_name split
    else if dataset_name = str "multinli_tr" ∧ split = some (str "test") then
      hub (str "nli_tr") dataset_name (some (str "validation_mismatched"))
    else
      hub (str "nli_tr") dataset_name split
  dataset.filter (fun ex => ex.label != -1)
termination_by (if dataset_name = str "nli_tr" then 1 else 0)
decreasing_by
  · simp [h]; decide
  · simp [h]; decide
  · simp [h]; decide

/-! ## The POS component (`POSDataset`) -/

/-- `pos_d_tr`, the fixed 17-entry universal-POS to Turkish display
vocabulary of `POSDataset.preprocess_data`. -/
def pos_d_tr : List (Str × Str) :=
  [(str "ADP", str "edat"), (str "AUX", str "yardımcı"),
    (str "PRON", str "zamir"), (str "NOUN", str "isim"),
    (str "PROPN", str "özel"), (str "INTJ", str "ünlem"),
    (str "PART", str "tanımcık"), (str "CCONJ", str "eşgüdümlü"),
    (str "VERB", str "fiil"), (str "SYM", str "sembol"),
    (str "DET", str "belirteç"), (str "ADV", str "zarf"),
    (str "ADJ", str "sıfat"), (str "X", str "diğer"),
    (str "SCONJ", str "yantümce"), (str "NUM", str "sayı"),
    (str "PUNCT", str "noktalama")]

/-- The rendered `'{}/{}'.format(form, pos_d_tr[pos])` unit. -/
def posUnit (form pos : Str) : Str := form ++ '/' :: lookupD pos_d_tr pos []

/-- The tag-list loop of `POSDataset.preprocess_data` over the zipped
`(id, token, tag)` triples, carrying the `split_token` countdown. -/
def posRender : Nat → List (Str × Str × Str) → List Str
  | _, [] => []
  | split_token, (id_t, form, pos) :: rest =>
    let split_token := if '-' ∈ id_t then 2 else split_token
    if pos = str "_" then posRender split_token rest
    else
      let unit := if split_token = 1 then '-' :: posUnit form pos
        else posUnit form pos
      unit :: posRender (if split_token ≠ 0 then split_token - 1 else split_token) rest

/-- `zip(examples['ids'], examples['tokens'], examples['tags'])`. -/
def pyZip3 (ids tokens tags : List Str) : List (Str × Str × Str) :=
  ids.zip (tokens.zip tags)

/-- `POSDataset.preprocess_data` on one example, returning the
`(input_text, target_text)` pair. -/
def posPreprocessOne (ids tokens tags : List Str) : Str × Str :=
  (pyJoin (str " ") tokens,
    pyJoin (str " ") (posRender 0 (pyZip3 ids tokens tags)))

/-- `POSDataset.postprocess_data` on one generated string: split on
whitespace, keep the final `/`-separated segment of each unit. -/
def posPostprocessOne (exampleStr : Str) : List Str :=
  let ex := pyStrip exampleStr
  (pySplitOn (str " ") ex).map (fun token => (pySplitOn (str "/") token).getLastD [])

/-! ## The registry (`DATASET_MAPPING_NAMES`, `initialize_dataset`) -/

/-- The adapter classes registered in `DATASET_MAPPING_NAMES`. -/
inductive DatasetClass
  | TRNewsDataset
  | MLSumDataset
  | CombinedNewsDataset
  | OpenSubtitlesDataset
  | TatoebaDataset
  | TEDDataset
  | NLI_TRDataset
  | ExamsDataset
  | TQUADDataset
  | MKQADataset
  | WikiANNDataset
  | MilliyetNERDataset
  | UDBOUNDataset
  | UDIMSTDataset
  | STSb_TRDataset
  | TTC4900Dataset
  | ProductDataset
deriving DecidableEq

/-- The Python exception the registry raises on an unknown name. The
spec's error taxonomy calls this condition `UnsupportedDatasetError`; the
code realises it as a bare `raise NotImplementedError`. -/
inductive PyError
  | notImplementedError
deriving DecidableEq

/-- `DATASET_MAPPING_NAMES`. -/
def DATASET_MAPPING_NAMES : List (Str × DatasetClass) :=
  [(str "tr_news", .TRNewsDataset),
    (str "mlsum", .MLSumDataset),
    (str "combined_news", .CombinedNewsDataset),
    (str "opensubtitles", .OpenSubtitlesDataset),
    (str "tatoeba", .TatoebaDataset),
    (str "ted", .TEDDataset),
    (str "nli_tr", .NLI_TRDataset),
    (str "snli_tr", .NLI_TRDataset),
    (str "multinli_tr", .NLI_TRDataset),
    (str "exams", .ExamsDataset),
    (str "tquad", .TQUADDataset),
    (str "mkqa", .MKQADataset),
    (str "wikiann", .WikiANNDataset),
    (str "milliyet", .MilliyetNERDataset),
    (str "boun", .UDBOUNDataset),
    (str "imst", .UDIMSTDataset),
    (str "stsb_tr", .STSb_TRDataset),
    (str "ttc4900", .TTC4900Dataset),
    (str "tr_product_reviews", .ProductDataset)]

/-- The lookup loop of `initialize_dataset`: first mapping entry whose
name matches wins; the fall-through raises `NotImplementedError`. The
construction arguments (`dataset_loc`/`dataset_name`) do not affect which
class is instantiated, so the model returns the class. -/
def initLookup : List (Str × DatasetClass) → Str → Except PyError DatasetClass
  | [], _ => .error .notImplementedError
  | (n, c) :: rest, dataset_name =>
    if dataset_name = n then .ok c else initLookup rest dataset_name

/-- `initialize_dataset` (adapter lookup by dataset name). -/
def initDataset (dataset_name : Str) : Except PyError DatasetClass :=
  initLookup DATASET_MAPPING_NAMES dataset_name

/-! ## Generic lemmas about the Python string operations -/

theorem isPre_subset {p s : Str} (h : isPre p s = true) : ∀ x ∈ p, x ∈ s := by
  induction p generalizing s with
  | nil => simp
  | cons a as ih =>
    cases s with
    | nil => simp [isPre] at h
    | cons b bs =>
      simp only [isPre, Bool.and_eq_true, beq_iff_eq] at h
      intro x hx
      rcases List.mem_cons.mp hx with hx | hx
      · exact h.1 ▸ hx ▸ List.mem_cons_self _ _
      · exact List.mem_cons_of_mem _ (ih h.2 x hx)

/-- A separator containing a character the string lacks never matches:
splitting returns the single chunk `acc ++ s`. -/
theorem splitAcc_none {c : Char} {sep s : Str} (acc : Str)
    (hc : c ∈ sep) (hs : c ∉ s) : splitAcc sep s acc 0 = [acc ++ s] := by
  induction s generalizing acc with
  | nil => simp [splitAcc]
  | cons a rest ih =>
    have hpre : isPre sep (a :: rest) = false := by
      by_contra hne
      exact hs (isPre_subset (eq_true_of_ne_false hne) c hc)
    rw [splitAcc, hpre]
    simp only [Bool.and_false, Bool.false_eq_true, if_false]
    rw [ih (acc ++ [a]) (fun h => hs (List.mem_cons_of_mem _ h))]
    simp

/-- The skip counter consumes exactly the matched separator characters. -/
theorem splitAcc_skip (sep xs t : Str) (acc : Str) :
    splitAcc sep (xs ++ t) acc xs.length = splitAcc sep t acc 0 := by
  induction xs generalizing acc with
  | nil => rfl
  | cons a as ih => simp only [List.cons_append, List.length_cons, splitAcc]; exact ih acc

theorem isPre_append_self (p t : Str) : isPre p (p ++ t) = true := by
  induction p with
  | nil => rfl
  | cons a as ih => simp [isPre, ih]

/-- A separator occurrence at the head closes the accumulated chunk. -/
theorem splitAcc_sep_cons (sep : Str) (hsep : sep ≠ []) (t acc : Str) :
    splitAcc sep (sep ++ t) acc 0 = acc :: splitAcc sep t [] 0 := by
  cases sep with
  | nil => exact absurd rfl hsep
  | cons c cs =>
    have hpre : isPre (c :: cs) (c :: (cs ++ t)) = true := by
      have h := isPre_append_self (c :: cs) t
      simpa using h
    show splitAcc (c :: cs) (c :: (cs ++ t)) acc 0 = _
    rw [splitAcc, hpre]
    simp only [List.isEmpty_cons, Bool.not_false, Bool.and_true, if_pos rfl]
    have h2 : (c :: cs).length - 1 = cs.length := rfl
    rw [h2, splitAcc_skip (c :: cs) cs t []]
    simp

/-- A head character that starts no separator occurrence joins the
current chunk. -/
theorem splitAcc_cons_ne {sep : Str} {a : Char} {s : Str}
    (h : isPre sep (a :: s) = false) (acc : Str) :
    splitAcc sep (a :: s) acc 0 = splitAcc sep s (acc ++ [a]) 0 := by
  rw [splitAcc, h]
  simp

/-- `pySplitOn` for a missing single-character separator. -/
theorem pySplitOn_single_none {c : Char} {s : Str} (hs : c ∉ s) :
    pySplitOn [c] s = [s] := by
  unfold pySplitOn
  rw [if_neg (by simp)]
  simpa using splitAcc_none [] (List.mem_singleton.mpr rfl) hs

/-- `pySplitOn` for a missing multi-character separator, witnessed by one
absent character. -/
theorem pySplitOn_none {c : Char} {sep s : Str} (hc : c ∈ sep) (hs : c ∉ s) :
    pySplitOn sep s = [s] := by
  unfold pySplitOn
  rw [if_neg (by rintro h; rw [List.isEmpty_iff.mp h] at hc; simp at hc)]
  simpa using splitAcc_none [] hc hs

/-- The accumulator form of `pySplitOn_single_append`. -/
theorem splitAcc_single_append {c : Char} (B : Str) :
    ∀ (A acc : Str), c ∉ A →
      splitAcc [c] (A ++ c :: B) acc 0 = (acc ++ A) :: splitAcc [c] B [] 0 := by
  intro A
  induction A with
  | nil =>
    intro acc _
    have h := splitAcc_sep_cons [c] (by simp) B acc
    simpa using h
  | cons b bs ihb =>
    intro acc hA
    have hb : b ≠ c := fun h => hA (h ▸ List.mem_cons_self _ _)
    have hpre2 : isPre [c] (b :: (bs ++ c :: B)) = false := by
      simp [isPre, Ne.symm hb]
    rw [List.cons_append, splitAcc_cons_ne hpre2 acc]
    rw [ihb (acc ++ [b]) (fun h => hA (List.mem_cons_of_mem _ h))]
    simp

/-- Splitting on a single character distributes over its occurrence. -/
theorem pySplitOn_single_append {c : Char} {A : Str} (B : Str) (hA : c ∉ A) :
    pySplitOn [c] (A ++ c :: B) = A :: pySplitOn [c] B := by
  unfold pySplitOn
  rw [if_neg (by simp), if_neg (by simp)]
  simpa using splitAcc_single_append B A [] hA

/-- `strip` is the identity when neither end is whitespace. -/
theorem pyStrip_nop {s : Str}
    (h1 : ∀ x ∈ s.head?, isSpaceChar x = false)
    (h2 : ∀ x ∈ s.getLast?, isSpaceChar x = false) : pyStrip s = s := by
  have hd : s.dropWhile isSpaceChar = s := by
    cases s with
    | nil => rfl
    | cons a rest =>
      have ha := h1 a (by simp)
      exact List.dropWhile_cons_of_neg (by simp [ha])
  unfold pyStrip
  rw [hd]
  have hr : s.reverse.dropWhile isSpaceChar = s.reverse := by
    cases hrev : s.reverse with
    | nil => rfl
    | cons a rest =>
      have ha : s.getLast? = some a := by rw [← List.head?_reverse, hrev]; rfl
      have hsp := h2 a (by simp [ha])
      exact List.dropWhile_cons_of_neg (by simp [hsp])
  rw [hr, List.reverse_reverse]

/-- Splitting a `join` recovers the chunks when none contains the
separator character. -/
theorem pySplitOn_join {c : Char} :
    ∀ us : List Str, us ≠ [] → (∀ u ∈ us, c ∉ u) →
      pySplitOn [c] (pyJoin [c] us) = us
  | [], h, _ => absurd rfl h
  | [u], _, hc => by
    rw [pyJoin]
    exact pySplitOn_single_none (hc u (by simp)) ▸ rfl
  | u :: v :: vs, _, hc => by
    have hjoin : pyJoin [c] (u :: v :: vs) = u ++ c :: pyJoin [c] (v :: vs) := by
      rw [pyJoin]; simp
    rw [hjoin, pySplitOn_single_append _ (hc u (by simp))]
    rw [pySplitOn_join (v :: vs) (by simp)
      (fun x hx => hc x (List.mem_cons_of_mem _ hx))]

/-- The accumulator form of the "last chunk" lemma: the final chunk of a
single-character split is everything after the last separator. -/
theorem getLastD_splitAcc {c : Char} {B : Str} (hB : c ∉ B) :
    ∀ (A acc d : Str), (splitAcc [c] (A ++ c :: B) acc 0).getLastD d = B := by
  intro A
  induction A with
  | nil =>
    intro acc d
    have h := splitAcc_sep_cons [c] (by simp) B acc
    simp only [List.nil_append]
    rw [show ((c :: B : Str)) = [c] ++ B from rfl, h]
    rw [splitAcc_none [] (by simp) hB]
    simp [List.getLastD_cons]
  | cons a as ih =>
    intro acc d
    by_cases hac : a = c
    · subst hac
      have h := splitAcc_sep_cons [a] (by simp) (as ++ a :: B) acc
      rw [List.cons_append, show (a :: (as ++ a :: B) : Str) = [a] ++ (as ++ a :: B) from rfl, h]
      rw [List.getLastD_cons]
      exact ih [] acc
    · have hpre : isPre [c] (a :: (as ++ c :: B)) = false := by
        simp [isPre]
        exact fun h => absurd h.symm hac
      rw [List.cons_append, splitAcc_cons_ne hpre acc]
      exact ih (acc ++ [a]) d

/-- The final `/`-separated segment of `form ++ "/" ++ tag` is `tag`
whenever `tag` itself contains no slash (`token.split('/')[-1]`). -/
theorem getLastD_pySplitOn {c : Char} {B : Str} (hB : c ∉ B) (A d : Str) :
    (pySplitOn [c] (A ++ c :: B)).getLastD d = B := by
  unfold pySplitOn
  rw [if_neg (by simp)]
  exact getLastD_splitAcc hB A [] d

/-- `list.index` past a prefix that lacks the key. -/
theorem pyIndexL_append {x : Str} {as : List Str} (bs : List Str) (h : x ∉ as) :
    pyIndexL x (as ++ bs) = as.length + pyIndexL x bs := by
  induction as with
  | nil => simp
  | cons a rest ih =>
    have ha : a ≠ x := fun he => h (he ▸ List.mem_cons_self _ _)
    have hrest : x ∉ rest := fun he => h (List.mem_cons_of_mem _ he)
    simp only [List.cons_append, pyIndexL, if_neg ha, List.length_cons, List.append_eq]
    rw [ih hrest]
    omega

/-- Association lookup falls through to the default when no key matches. -/
theorem lookupD_default {α β : Type} [DecidableEq α] {d : List (α × β)}
    {k : α} {dflt : β} (h : ∀ p ∈ d, p.1 ≠ k) : lookupD d k dflt = dflt := by
  induction d with
  | nil => rfl
  | cons p rest ih =>
    rw [show p = (p.1, p.2) from rfl, lookupD,
      if_neg (h p (List.mem_cons_self _ _)), ih (fun q hq => h q (List.mem_cons_of_mem _ hq))]

theorem enumFrom_append_eq {α : Type} (xs ys : List α) :
    ∀ n, List.enumFrom n (xs ++ ys)
      = List.enumFrom n xs ++ List.enumFrom (n + xs.length) ys := by
  induction xs with
  | nil => intro n; simp
  | cons a rest ih =>
    intro n
    simp only [List.cons_append, List.enumFrom, List.append_eq, ih (n + 1),
      List.length_cons]
    have heq : n + 1 + rest.length = n + (rest.length + 1) := by omega
    rw [heq]

/-! ## Claim C2 -/

/-- The apostrophe character (written by code point to keep source
literals plain). -/
def apoChar : Char := Char.ofNat 39

/-- The scenario token `Ankara'ya`. -/
def ankaraya : Str := str "Ankara" ++ apoChar :: str "ya"

/-- Claim C2, counterexample. The claim asserts that
`NERDataset.postprocess_data` applied to the serialized target
`"Kişi: Ali | Yer: Ankara'ya"` returns `[1, 3, 0]`. It does not: the
deserializer indexes labels against the space-split units of the
generated string itself, producing `[0, 1, 0, 0, 3]`. -/
theorem c2_counterexample :
    nerPostprocess [str "Kişi: Ali | Yer: " ++ ankaraya] ≠ [[1, 3, 0]] := by
  decide

/-- Claim C2, amended: for tokens `["Ali", "Ankara'ya", "gitti"]` with
spans `["PER: Ali", "LOC: Ankara'ya"]`, `WikiANNDataset.preprocess_data`
emits the target `"Kişi: Ali | Yer: Ankara'ya"` (as the claim states),
and `NERDataset.postprocess_data` on that string returns
`[0, 1, 0, 0, 3]`: one label per space-split unit of the generated
string, with begin-PER code 1 at the unit holding `Ali` and begin-LOC
code 3 at the unit holding `Ankara'ya` — not `[1, 3, 0]` over the input
tokens. -/
theorem c2_scenario :
    wikiannPreprocessOne [str "Ali", ankaraya, str "gitti"]
        [str "PER: Ali", str "LOC: " ++ ankaraya]
      = (str "Ali " ++ ankaraya ++ str " gitti", str "Kişi: Ali | Yer: " ++ ankaraya)
    ∧ nerPostprocess [str "Kişi: Ali | Yer: " ++ ankaraya] = [[0, 1, 0, 0, 3]] := by
  constructor
  · decide
  · decide

/-! ## Claim C3 -/

/-- Claim C3, counterexample. The claim asserts that
`NERDataset.postprocess_data` applied to the sentinel `"Bulunamadı."`
returns `[0, 0, 0]` for a 3-token input. It does not: the deserializer
has no access to the input tokens and sizes its label list by the
space-split units of the generated string, so the sentinel always yields
the single-element sequence `[0]`. -/
theorem c3_counterexample :
    nerPostprocess [str "Bulunamadı."] ≠ [[0, 0, 0]] := by decide

/-- Claim C3, amended: on a 3-token input with no entities, both NER
serializers emit the sentinel `"Bulunamadı."` (as the claim states), and
`NERDataset.postprocess_data` on the sentinel returns `[0]` — a single
zero for the sentinel's single space-split unit, irrespective of the
input token count. -/
theorem c3_sentinel :
    ∀ t1 t2 t3 : Str,
      (wikiannPreprocessOne [t1, t2, t3] []).2 = str "Bulunamadı."
      ∧ (milliyetPreprocessOne [t1, t2, t3] [str "O", str "O", str "O"]).2
        = str "Bulunamadı."
      ∧ nerPostprocess [str "Bulunamadı."] = [[0]] := by
  intro t1 t2 t3
  exact ⟨rfl, rfl, by decide⟩

/-! ## Claim C4 -/

/-- The duplicated exam QG loop computes the same pair list as the QA loop. -/
theorem examsPairs_eq (l : List (ExamsQuestion × Str)) :
    examsPairsQG l = examsPairsQA l := by
  induction l with
  | nil => rfl
  | cons p rest ih =>
    obtain ⟨q, k⟩ := p
    rw [examsPairsQA, examsPairsQG, ih]

/-- The MKQA QG loop emits exactly the swapped QA pairs. -/
theorem mkqaPairs_swap (l : List (MkqaQueries × MkqaAnswers)) :
    mkqaPairsQG l = (mkqaPairsQA l).map (fun p => (p.2, p.1)) := by
  induction l with
  | nil => rfl
  | cons p rest ih =>
    obtain ⟨q, a⟩ := p
    rw [mkqaPairsQA, mkqaPairsQG, ih]
    split_ifs <;> simp

/-- Claim C4, counterexample. The claim asserts the TQuAD
question-generation output equals the question-answering output with
input and target swapped. It does not: for the single example with
context `C`, question `Q`, answer `A`, QA yields
`("Bağlam: C | Soru: Q", "A")` while QG yields
`("Bağlam: C | Cevap: A", "Q")`, which is not the swapped pair
`("A", "Bağlam: C | Soru: Q")`. -/
theorem c4_counterexample :
    tquadQG [[⟨str "C", [⟨str "Q", [⟨str "A"⟩]⟩]⟩]]
      ≠ swapBatch (tquadQA [[⟨str "C", [⟨str "Q", [⟨str "A"⟩]⟩]⟩]]) := by
  decide

/-- Claim C4, amended: the Exams and MKQA question-generation
preprocessors produce exactly the question-answering batch with the roles
of input and target swapped; the TQuAD question-generation preprocessor
shares the QA extraction (the same `(context, question, first answer)`
triples, in the same order, with no independent extraction logic) but
renders input `"Bağlam: {context} | Cevap: {answer}"` and target
`{question}` rather than swapping the QA pair. -/
theorem c4_qg_from_qa :
    (∀ (qs : List ExamsQuestion) (ks : List Str),
      examsQG qs ks = swapBatch (examsQA qs ks))
    ∧ (∀ (qs : List MkqaQueries) (ans : List MkqaAnswers),
      mkqaQG qs ans = swapBatch (mkqaQA qs ans))
    ∧ (∀ ps : List (List TquadParagraph),
      tquadPairsQA ps = (tquadTriples ps).map
        (fun t => (str "Bağlam: " ++ t.1 ++ str " | Soru: " ++ t.2.1, t.2.2))
      ∧ tquadPairsQG ps = (tquadTriples ps).map
        (fun t => (str "Bağlam: " ++ t.1 ++ str " | Cevap: " ++ t.2.2, t.2.1))) := by
  refine ⟨?_, ?_, ?_⟩
  · intro qs ks
    rw [examsQG, examsQA, examsPairs_eq]
    rfl
  · intro qs ans
    rw [mkqaQG, mkqaQA, mkqaPairs_swap]
    simp [swapBatch, List.map_map]
  · intro ps
    constructor
    · simp [tquadPairsQA, tquadTriples, List.map_flatMap, List.map_map,
        Function.comp_def]
    · simp [tquadPairsQG, tquadTriples, List.map_flatMap, List.map_map,
        Function.comp_def]

/-! ## Claim C5 -/

/-- Claim C5, counterexample. The claim asserts the absent-key case and
the empty-resolved-answer case both emit `(stem, "")`. On the batch with
one absent-key example (`S1`) and one found-key-but-empty-answer example
(`S2`), `preprocess_question_answering` emits only the `S1` pair: the
empty-answer example is skipped entirely by the `continue`, so the
predicted two-pair batch is not produced. -/
theorem c5_counterexample :
    examsQA [⟨str "S1", ⟨[str "A"], [str "Paris"]⟩⟩, ⟨str "S2", ⟨[str "A"], [[]]⟩⟩]
        [str "C", str "A"]
      = ⟨[str "S1"], [[]]⟩
    ∧ examsQA [⟨str "S1", ⟨[str "A"], [str "Paris"]⟩⟩, ⟨str "S2", ⟨[str "A"], [[]]⟩⟩]
        [str "C", str "A"]
      ≠ ⟨[str "S1", str "S2"], [[], []]⟩ := by
  constructor
  · decide
  · decide

/-- Claim C5, amended: in `ExamsDataset.preprocess_question_answering`,
an answer key absent from the choice labels emits the pair
`(stem, "")`; a present key whose resolved answer text is empty emits
nothing at all (the example is skipped). The two cases are not treated
identically. -/
theorem c5_cases (stem : Str) (labels texts : List Str) (key : Str)
    (rest : List (ExamsQuestion × Str)) :
    (key ∉ labels →
      examsPairsQA ((⟨stem, ⟨labels, texts⟩⟩, key) :: rest)
        = (stem, []) :: examsPairsQA rest)
    ∧ (key ∈ labels → texts.getD (pyIndexL key labels) [] = [] →
      examsPairsQA ((⟨stem, ⟨labels, texts⟩⟩, key) :: rest)
        = examsPairsQA rest) := by
  constructor
  · intro h
    rw [examsPairsQA]
    exact if_pos h
  · intro h h2
    rw [examsPairsQA, if_neg (not_not_intro h)]
    exact if_pos h2

/-- Witness for C5: the two cases at concrete inputs. -/
theorem c5_witness :
    examsPairsQA [(⟨str "S1", ⟨[str "A"], [str "Paris"]⟩⟩, str "C")]
      = [(str "S1", [])]
    ∧ examsPairsQA [(⟨str "S2", ⟨[str "A"], [[]]⟩⟩, str "A")] = [] :=
  ⟨(c5_cases (str "S1") [str "A"] [str "Paris"] (str "C") []).1 (by decide),
    (c5_cases (str "S2") [str "A"] [[]] (str "A") []).2 (by decide) (by decide)⟩

/-! ## Claim C6 -/

/-- Claim C6, confirmed: for every label code in a classification codec's
domain (`ProductDataset` 0/1, `NLI_TRDataset` 0/1/2, `TTC4900Dataset`
0..6), decoding the display text produced by encoding the code returns
the code; and any text whose stripped form matches no label decodes to
the sentinel `-1` (the lookup is total — `dict.get` with default — so it
never raises). -/
theorem c6_codec_roundtrip :
    (∀ c ∈ productIN.map Prod.fst, productPostprocessOne (productEncode c) = c)
    ∧ (∀ c ∈ nliIN.map Prod.fst, nliPostprocessOne (nliEncode c) = c)
    ∧ (∀ c ∈ ttcIN.map Prod.fst, ttcPostprocessOne (ttcEncode c) = c)
    ∧ (∀ s : Str, (∀ p ∈ productOUT, p.1 ≠ pyStrip s) → productPostprocessOne s = -1)
    ∧ (∀ s : Str, (∀ p ∈ nliOUT, p.1 ≠ pyStrip s) → nliPostprocessOne s = -1)
    ∧ (∀ s : Str, (∀ p ∈ ttcOUT, p.1 ≠ pyStrip s) → ttcPostprocessOne s = -1) := by
  refine ⟨by decide, by decide, by decide, ?_, ?_, ?_⟩
  · intro s h
    exact lookupD_default h
  · intro s h
    exact lookupD_default h
  · intro s h
    exact lookupD_default h

/-- Witness for C6: the sentiment code 1 round-trips through
`"pozitif"`, and the unknown text `"neutral"` decodes to `-1`. -/
theorem c6_witness :
    productPostprocessOne (productEncode 1) = 1
    ∧ nliPostprocessOne (str "neutral") = -1 :=
  ⟨c6_codec_roundtrip.1 1 (by decide),
    c6_codec_roundtrip.2.2.2.2.1 (str "neutral") (by decide)⟩

/-! ## Claim C9 -/

/-- A name matching no registry entry falls through to the raise. -/
theorem initLookup_not_mem :
    ∀ (l : List (Str × DatasetClass)) (name : Str),
      name ∉ l.map Prod.fst → initLookup l name = .error .notImplementedError := by
  intro l
  induction l with
  | nil => intro name _; rfl
  | cons p rest ih =>
    intro name h
    obtain ⟨n, c⟩ := p
    have hn : name ≠ n := fun he =>
      h (by rw [List.map_cons]; exact List.mem_cons.mpr (Or.inl he))
    rw [initLookup, if_neg hn]
    exact ih name (fun he => h (List.mem_cons_of_mem _ he))

/-- A registered name resolves to its registered class (first match wins;
the registry's names are pairwise distinct). -/
theorem initLookup_mem :
    ∀ (l : List (Str × DatasetClass)) (name : Str) (c : DatasetClass),
      (l.map Prod.fst).Nodup → (name, c) ∈ l → initLookup l name = .ok c := by
  intro l
  induction l with
  | nil => intro name c _ h; exact absurd h (List.not_mem_nil _)
  | cons p rest ih =>
    intro name c hnd hmem
    obtain ⟨n, c0⟩ := p
    rw [List.map_cons, List.nodup_cons] at hnd
    by_cases hn : name = n
    · subst hn
      rw [initLookup, if_pos rfl]
      rcases List.mem_cons.mp hmem with h | h
      · injection h with h1 h2
        rw [h2]
      · exact absurd (List.mem_map.mpr ⟨(name, c), h, rfl⟩) hnd.1
    · rw [initLookup, if_neg hn]
      rcases List.mem_cons.mp hmem with h | h
      · injection h with h1 h2
        exact absurd h1 hn
      · exact ih name c hnd.2 h

/-- Claim C9, confirmed: `initialize_dataset` raises
(`NotImplementedError`, the realisation of the spec's
`UnsupportedDatasetError`) exactly on names absent from
`DATASET_MAPPING_NAMES`, and returns an instance of the registered
adapter class for every present name. -/
theorem c9_registry :
    (∀ name : Str, name ∉ DATASET_MAPPING_NAMES.map Prod.fst →
      initDataset name = .error .notImplementedError)
    ∧ (∀ (name : Str) (c : DatasetClass), (name, c) ∈ DATASET_MAPPING_NAMES →
      initDataset name = .ok c) :=
  ⟨fun name h => initLookup_not_mem DATASET_MAPPING_NAMES name h,
    fun name c h => initLookup_mem DATASET_MAPPING_NAMES name c (by decide) h⟩

/-- Witness for C9: the unregistered name `"xquad"` raises, the
registered name `"milliyet"` resolves to `MilliyetNERDataset`. -/
theorem c9_witness :
    initDataset (str "xquad") = .error .notImplementedError
    ∧ initDataset (str "milliyet") = .ok .MilliyetNERDataset :=
  ⟨c9_registry.1 (str "xquad") (by decide),
    c9_registry.2 (str "milliyet") .MilliyetNERDataset (by decide)⟩

/-! ## Claim C10 -/

/-- Claim C10, confirmed: whatever the hub returns, every code path of
`NLI_TRDataset.load_dataset` (combined `nli_tr`, `snli_tr`,
`multinli_tr`, and the test-to-`validation_mismatched` substitution) ends
in the final `filter(lambda example: example["label"] != -1)`, so every
example the loader returns has `label ≠ -1`, and the `IN_LABEL_DICT`
lookup in `preprocess_data` never receives the code `-1` on a loaded
batch. -/
theorem c10_label_filter (hub : Str → Str → Option Str → List NLIExample)
    (dataset_name : Str) (split : Option Str) (ex : NLIExample)
    (h : ex ∈ nliLoadDataset hub dataset_name split) : ex.label ≠ -1 := by
  rw [nliLoadDataset] at h
  have h2 := List.mem_filter.mp h
  simpa using h2.2

/-- Witness for C10: a concrete hub whose `snli_tr` split contains one
example with label 0; the loader keeps it and its label is not `-1`. -/
theorem c10_witness : (⟨str "p", str "h", 0⟩ : NLIExample).label ≠ -1 :=
  c10_label_filter (fun _ _ _ => [⟨str "p", str "h", 0⟩])
    (str "snli_tr") (some (str "train")) ⟨str "p", str "h", 0⟩
    (by rw [nliLoadDataset]; decide)

/-! ## Claim C7 -/

/-- With no hyphenated id and no placeholder tag, the `split_token`
countdown stays at zero and the tag loop is a plain map. -/
theorem posRender_plain :
    ∀ l : List (Str × Str × Str),
      (∀ t ∈ l, '-' ∉ t.1) → (∀ t ∈ l, t.2.2 ≠ str "_") →
      posRender 0 l = l.map (fun t => posUnit t.2.1 t.2.2) := by
  intro l
  induction l with
  | nil => intro _ _; rfl
  | cons t rest ih =>
    intro h1 h2
    obtain ⟨id_t, form, pos⟩ := t
    have hid : ¬('-' ∈ id_t) := h1 _ (List.mem_cons_self _ _)
    have hpos : pos ≠ str "_" := h2 _ (List.mem_cons_self _ _)
    rw [posRender]
    simp only [if_neg hid, if_neg hpos, List.map_cons]
    norm_num
    exact ih (fun x hx => h1 x (List.mem_cons_of_mem _ hx))
      (fun x hx => h2 x (List.mem_cons_of_mem _ hx))

/-- The Turkish display strings of the POS vocabulary contain no space
and no slash, are nonempty, and end in a non-whitespace character. -/
theorem pos_lookup_ok :
    ∀ pos ∈ pos_d_tr.map Prod.fst,
      (' ' ∉ lookupD pos_d_tr pos []) ∧ ('/' ∉ lookupD pos_d_tr pos [])
      ∧ lookupD pos_d_tr pos [] ≠ []
      ∧ isSpaceChar ((lookupD pos_d_tr pos []).getLastD '/') = false := by
  decide

/-- `strip` is the identity when the boundary characters (with a
non-whitespace default for the empty string) are not whitespace. -/
theorem pyStrip_nop_d {s : Str} (h1 : isSpaceChar (s.headD '/') = false)
    (h2 : isSpaceChar (s.getLastD '/') = false) : pyStrip s = s := by
  refine pyStrip_nop (fun x hx => ?_) (fun x hx => ?_)
  · cases s with
    | nil => simp at hx
    | cons a rest =>
      have ha : a = x := by simpa using hx
      exact ha ▸ h1
  · have : s.getLastD '/' = x := by
      rw [List.getLastD_eq_getLast?, Option.mem_def.mp hx]
      rfl
    exact this ▸ h2

/-- The head of a joined list is the head of its first chunk, when that
chunk is nonempty. -/
theorem pyJoin_head? (sep u : Str) (us : List Str) (hu : u ≠ []) :
    (pyJoin sep (u :: us)).head? = u.head? := by
  cases us with
  | nil => rfl
  | cons v vs =>
    rw [pyJoin]
    cases u with
    | nil => exact absurd rfl hu
    | cons a rest => rfl

/-- A join starting from a nonempty chunk is nonempty. -/
theorem pyJoin_ne_nil {sep : Str} (u : Str) (us : List Str) (hu : u ≠ []) :
    pyJoin sep (u :: us) ≠ [] := by
  cases us with
  | nil => simpa [pyJoin] using hu
  | cons v vs =>
    rw [pyJoin]
    cases u with
    | nil => exact absurd rfl hu
    | cons a rest => simp

/-- The last character of a joined list is the last character of its last
chunk, when every chunk is nonempty. -/
theorem pyJoin_getLast? (sep : Str) :
    ∀ us : List Str, (∀ u ∈ us, u ≠ []) → us ≠ [] →
      (pyJoin sep us).getLast? = (us.getLastD []).getLast?
  | [], _, h => absurd rfl h
  | [u], _, _ => by rw [pyJoin]; rfl
  | u :: v :: vs, hne, _ => by
    rw [pyJoin]
    have hJ : pyJoin sep (v :: vs) ≠ [] :=
      pyJoin_ne_nil v vs (hne v (by simp))
    rw [show u ++ sep ++ pyJoin sep (v :: vs)
      = (u ++ sep) ++ pyJoin sep (v :: vs) from rfl]
    rw [List.getLast?_append_of_ne_nil _ hJ]
    rw [pyJoin_getLast? sep (v :: vs)
      (fun x hx => hne x (List.mem_cons_of_mem _ hx)) (by simp)]
    simp [List.getLastD_cons]

/-- The projection of the zipped triples onto the tag component. -/
theorem zip3_map_third (f : Str → Str) :
    ∀ ids tokens tags : List Str, ids.length = tokens.length →
      tokens.length = tags.length →
      (pyZip3 ids tokens tags).map (fun t => f t.2.2) = tags.map f := by
  intro ids
  induction ids with
  | nil =>
    intro tokens tags h1 h2
    simp only [List.length_nil] at h1
    have ht : tokens = [] := List.length_eq_zero.mp h1.symm
    subst ht
    simp only [List.length_nil] at h2
    have hg : tags = [] := List.length_eq_zero.mp h2.symm
    subst hg
    rfl
  | cons i ids ih =>
    intro tokens tags h1 h2
    cases tokens with
    | nil => simp at h1
    | cons tok toks =>
      cases tags with
      | nil => simp at h2
      | cons tg tgs =>
        simp only [pyZip3, List.zip_cons_cons, List.map_cons, List.length_cons] at *
        rw [ih toks tgs (by omega) (by omega)]

theorem getLastD_mem {α : Type} : ∀ (l : List α) (d : α), l ≠ [] → l.getLastD d ∈ l
  | [], _, h => absurd rfl h
  | [a], d, _ => by simp
  | a :: b :: bs, d, _ => by
    rw [List.getLastD_cons]
    exact List.mem_cons_of_mem _ (getLastD_mem (b :: bs) a (by simp))

/-- The serialized `form/tag` unit of a whitespace-free token and a
vocabulary tag: nonempty, space-free, non-whitespace at both ends. -/
theorem posUnit_ok {form pos : Str} (hpos : pos ∈ pos_d_tr.map Prod.fst)
    (hform : ∀ c ∈ form, isSpaceChar c = false) :
    posUnit form pos ≠ [] ∧ (' ' ∉ posUnit form pos)
    ∧ isSpaceChar ((posUnit form pos).headD '/') = false
    ∧ isSpaceChar ((posUnit form pos).getLastD '/') = false := by
  obtain ⟨h1, h2, h3, h4⟩ := pos_lookup_ok pos hpos
  unfold posUnit
  refine ⟨by simp, ?_, ?_, ?_⟩
  · intro hmem
    rcases List.mem_append.mp hmem with h | h
    · have hs := hform ' ' h
      simp [isSpaceChar] at hs
    · rcases List.mem_cons.mp h with h | h
      · exact absurd h (by decide)
      · exact h1 h
  · cases form with
    | nil =>
      show isSpaceChar '/' = false
      decide
    | cons a rest => exact hform a (List.mem_cons_self _ _)
  · obtain ⟨b, bs, htr2⟩ : ∃ b bs, lookupD pos_d_tr pos [] = b :: bs := by
      cases htr : lookupD pos_d_tr pos [] with
      | nil => exact absurd htr h3
      | cons b bs => exact ⟨b, bs, rfl⟩
    rw [htr2]
    have hlast : (form ++ '/' :: b :: bs).getLastD '/' = (b :: bs).getLastD '/' := by
      rw [List.getLastD_eq_getLast?, List.getLastD_eq_getLast?]
      rw [List.getLast?_append_of_ne_nil _ (by simp), List.getLast?_cons_cons]
    rw [hlast]
    exact htr2 ▸ h4

/-- Claim C7, counterexample. The claim asserts a POS round trip for
every example without multi-word tokens. The single-token example whose
surface form `"a b"` contains a space (no hyphenated id, no `_` tag) is
serialized to `"a b/isim"`, which deserializes to `["a", "isim"]` — not
the display-mapped tag sequence `["isim"]`. -/
theorem c7_counterexample :
    posPostprocessOne ((posPreprocessOne [str "1"] [str "a b"] [str "NOUN"]).2)
      ≠ [str "NOUN"].map (fun t => lookupD pos_d_tr t []) := by
  decide

/-- Claim C7, amended: the round trip
`postprocess_data (preprocess_data example) = display-mapped tags` holds
for every nonempty example without multi-word tokens whose ids are
hyphen-free, whose tags are placeholder-free display-vocabulary tags, and
whose tokens contain no whitespace (the deserializer splits the generated
string on spaces, so a whitespace-bearing token or an empty example breaks
alignment). The deserializer returns the Turkish display strings; no
reverse mapping to the universal tags occurs. -/
theorem c7_roundtrip (ids tokens tags : List Str)
    (hlen1 : ids.length = tokens.length) (hlen2 : tokens.length = tags.length)
    (hne : tags ≠ [])
    (hid : ∀ i ∈ ids, '-' ∉ i)
    (htag : ∀ t ∈ tags, t ∈ pos_d_tr.map Prod.fst ∧ t ≠ str "_")
    (htok : ∀ t ∈ tokens, ∀ c ∈ t, isSpaceChar c = false) :
    posPostprocessOne ((posPreprocessOne ids tokens tags).2)
      = tags.map (fun t => lookupD pos_d_tr t []) := by
  have hzip : ∀ t ∈ pyZip3 ids tokens tags,
      '-' ∉ t.1 ∧ (t.2.2 ∈ pos_d_tr.map Prod.fst ∧ t.2.2 ≠ str "_")
      ∧ (∀ c ∈ t.2.1, isSpaceChar c = false) := by
    intro t ht
    obtain ⟨i, tk, tg⟩ := t
    have h1 := List.of_mem_zip ht
    have h2 := List.of_mem_zip h1.2
    exact ⟨hid i h1.1, htag tg h2.2, htok tk h2.1⟩
  have hrender : posRender 0 (pyZip3 ids tokens tags)
      = (pyZip3 ids tokens tags).map (fun t => posUnit t.2.1 t.2.2) :=
    posRender_plain _ (fun t ht => (hzip t ht).1) (fun t ht => (hzip t ht).2.1.2)
  show posPostprocessOne
    (pyJoin (str " ") (posRender 0 (pyZip3 ids tokens tags))) = _
  rw [hrender]
  have hunit : ∀ u ∈ (pyZip3 ids tokens tags).map (fun t => posUnit t.2.1 t.2.2),
      u ≠ [] ∧ (' ' ∉ u) ∧ isSpaceChar (u.headD '/') = false
      ∧ isSpaceChar (u.getLastD '/') = false := by
    intro u hu
    obtain ⟨t, ht, rfl⟩ := List.mem_map.mp hu
    exact posUnit_ok (hzip t ht).2.1.1 (hzip t ht).2.2
  set us := (pyZip3 ids tokens tags).map (fun t => posUnit t.2.1 t.2.2) with hus
  have hus_ne : us ≠ [] := by
    intro h0
    have hlz : us.length = tags.length := by
      rw [hus]
      simp only [List.length_map, pyZip3, List.length_zip, hlen1, hlen2]
      omega
    rw [h0] at hlz
    simp only [List.length_nil] at hlz
    exact hne (List.length_eq_zero.mp hlz.symm)
  obtain ⟨u0, us', hus0⟩ : ∃ u0 us', us = u0 :: us' := by
    cases h : us with
    | nil => exact absurd h hus_ne
    | cons a l => exact ⟨a, l, rfl⟩
  have hstrip : pyStrip (pyJoin (str " ") us) = pyJoin (str " ") us := by
    refine pyStrip_nop_d ?_ ?_
    · rw [hus0]
      have hh := pyJoin_head? (str " ") u0 us'
        ((hunit u0 (hus0 ▸ List.mem_cons_self _ _)).1)
      rw [show (pyJoin (str " ") (u0 :: us')).headD '/'
        = ((pyJoin (str " ") (u0 :: us')).head?).getD '/' from (List.headD_eq_head?_getD ..),
        hh]
      have h1 := (hunit u0 (hus0 ▸ List.mem_cons_self _ _)).2.2.1
      rw [List.headD_eq_head?_getD] at h1
      exact h1
    · have hl := pyJoin_getLast? (str " ") us
        (fun u hu => (hunit u hu).1) hus_ne
      rw [List.getLastD_eq_getLast?, hl]
      have hmem := getLastD_mem us [] hus_ne
      have h1 := (hunit _ hmem).2.2.2
      rw [List.getLastD_eq_getLast?] at h1
      have hlne : us.getLastD [] ≠ [] := (hunit _ hmem).1
      exact h1
  rw [posPostprocessOne, hstrip]
  have hsplit : pySplitOn (str " ") (pyJoin (str " ") us) = us := by
    rw [show str " " = [' '] from rfl]
    exact pySplitOn_join us hus_ne (fun u hu => (hunit u hu).2.1)
  rw [hsplit, hus, List.map_map]
  have hext : ∀ t ∈ pyZip3 ids tokens tags,
      ((fun token => (pySplitOn (str "/") token).getLastD [])
        ∘ fun t => posUnit t.2.1 t.2.2) t = lookupD pos_d_tr t.2.2 [] := by
    intro t ht
    have hsl := (pos_lookup_ok t.2.2 (hzip t ht).2.1.1).2.1
    show (pySplitOn (str "/") (t.2.1 ++ '/' :: lookupD pos_d_tr t.2.2 [])).getLastD []
      = lookupD pos_d_tr t.2.2 []
    rw [show str "/" = ['/'] from rfl]
    exact getLastD_pySplitOn hsl _ _
  rw [List.map_congr_left hext]
  exact zip3_map_third (fun t => lookupD pos_d_tr t []) ids tokens tags hlen1 hlen2

/-- Witness for C7: a concrete two-token example round-trips to its
display-mapped tags. -/
theorem c7_witness :
    posPostprocessOne ((posPreprocessOne [str "1", str "2"]
        [str "Ali", str "geldi"] [str "PROPN", str "VERB"]).2)
      = [str "PROPN", str "VERB"].map (fun t => lookupD pos_d_tr t []) :=
  c7_roundtrip [str "1", str "2"] [str "Ali", str "geldi"]
    [str "PROPN", str "VERB"] (by decide) (by decide) (by decide)
    (by decide) (by decide) (by decide)

/-! ## Claim C8 -/

/-- Claim C8, counterexample. The claim asserts that after a hyphenated
(multi-word) id, the immediately following real sub-token is rendered
with the leading `-`. On the canonical multi-word triple
`(1-2, evdeki, _), (1, ev, NOUN), (2, deki, ADP)` the serializer emits
`"ev/isim -deki/edat"`: the first following sub-token `ev` is unprefixed
and the second, `deki`, carries the `-`, because the placeholder `_` row
is skipped before the countdown decrements. -/
theorem c8_counterexample :
    (posPreprocessOne [str "1-2", str "1", str "2"]
        [str "evdeki", str "ev", str "deki"] [str "_", str "NOUN", str "ADP"]).2
      = str "ev/isim -deki/edat"
    ∧ (posPreprocessOne [str "1-2", str "1", str "2"]
        [str "evdeki", str "ev", str "deki"] [str "_", str "NOUN", str "ADP"]).2
      ≠ str "-ev/isim deki/edat" := by
  constructor
  · decide
  · decide

/-- Rendering distributes over a hyphen-free prefix (the countdown stays
at zero there). -/
theorem posRender_append (pre ys : List (Str × Str × Str))
    (hpre : ∀ t ∈ pre, '-' ∉ t.1) :
    posRender 0 (pre ++ ys) = posRender 0 pre ++ posRender 0 ys := by
  induction pre with
  | nil => rfl
  | cons t rest ih =>
    obtain ⟨id_t, form, pos⟩ := t
    have hid : ¬('-' ∈ id_t) := hpre _ (List.mem_cons_self _ _)
    have ihr := ih (fun x hx => hpre x (List.mem_cons_of_mem _ hx))
    rw [List.cons_append, posRender, posRender]
    simp only [if_neg hid]
    by_cases hpos : pos = str "_"
    · rw [if_pos hpos, if_pos hpos]
      exact ihr
    · rw [if_neg hpos, if_neg hpos]
      norm_num
      rw [ihr]

/-- One rendered unit per row whose tag is not the placeholder `_`,
whatever the countdown state. -/
theorem posRender_length :
    ∀ (l : List (Str × Str × Str)) (st : Nat),
      (posRender st l).length = (l.filter (fun t => t.2.2 != str "_")).length := by
  intro l
  induction l with
  | nil => intro st; rfl
  | cons t rest ih =>
    intro st
    obtain ⟨id_t, form, pos⟩ := t
    rw [posRender, List.filter_cons]
    by_cases hpos : pos = str "_"
    · rw [if_pos hpos]
      simp only [hpos]
      norm_num
      exact ih _
    · rw [if_neg hpos]
      simp only [List.length_cons, ih]
      have hb : ((id_t, form, pos).2.2 != str "_") = true := by
        simpa using hpos
      rw [if_pos hb, List.length_cons]

/-- Claim C8, amended: when an id signals a multi-word span and its own
row carries the placeholder `_` tag (the CoNLL-U convention), that row is
skipped without decrementing the countdown, so it is the SECOND following
real sub-token — not the immediately following one — that is rendered
with the leading `-` prefix; and every row whose tag is the placeholder
`_` is skipped (one rendered unit per non-placeholder row). -/
theorem c8_lookahead :
    (∀ (pre rest : List (Str × Str × Str)) (i0 t0 i1 t1 p1 i2 t2 p2 : Str),
      (∀ t ∈ pre, '-' ∉ t.1) → '-' ∈ i0 → '-' ∉ i1 → '-' ∉ i2 →
      p1 ≠ str "_" → p2 ≠ str "_" →
      posRender 0
          (pre ++ (i0, t0, str "_") :: (i1, t1, p1) :: (i2, t2, p2) :: rest)
        = posRender 0 pre
          ++ posUnit t1 p1 :: ('-' :: posUnit t2 p2) :: posRender 0 rest)
    ∧ (∀ (l : List (Str × Str × Str)) (st : Nat),
      (posRender st l).length
        = (l.filter (fun t => t.2.2 != str "_")).length) := by
  constructor
  · intro pre rest i0 t0 i1 t1 p1 i2 t2 p2 hpre h0 h1 h2 hp1 hp2
    rw [posRender_append pre _ hpre]
    congr 1
    rw [posRender]
    simp only [if_pos h0, if_pos rfl]
    rw [posRender]
    simp only [if_neg h1, if_neg hp1]
    norm_num
    rw [posRender]
    simp only [if_neg h2, if_neg hp2]
    norm_num
  · exact posRender_length

/-- Witness for C8: the `evdeki = ev + -deki` block at concrete input,
through the amended theorem. -/
theorem c8_witness :
    posRender 0 [(str "1-2", str "evdeki", str "_"),
        (str "1", str "ev", str "NOUN"), (str "2", str "deki", str "ADP")]
      = [str "ev/isim", '-' :: str "deki/edat"]
    ∧ (posRender 0 [(str "1-2", str "evdeki", str "_"),
        (str "1", str "ev", str "NOUN"), (str "2", str "deki", str "ADP")]).length
      = 2 := by
  constructor
  · have h := c8_lookahead.1 [] [] (str "1-2") (str "evdeki") (str "1")
      (str "ev") (str "NOUN") (str "2") (str "deki") (str "ADP")
      (by decide) (by decide) (by decide) (by decide) (by decide) (by decide)
    rw [show ([] : List (Str × Str × Str)) ++ (str "1-2", str "evdeki", str "_")
      :: (str "1", str "ev", str "NOUN") :: (str "2", str "deki", str "ADP") :: []
      = [(str "1-2", str "evdeki", str "_"), (str "1", str "ev", str "NOUN"),
        (str "2", str "deki", str "ADP")] from rfl] at h
    rw [h]
    decide
  · rw [c8_lookahead.2]
    decide

/-! ## Claim C1 -/

/-- `replace` is the identity when some character of the pattern is
absent from the string. -/
theorem pyReplace_none {c : Char} {old s : Str} (new : Str)
    (hc : c ∈ old) (hs : c ∉ s) : pyReplace old new s = s := by
  unfold pyReplace
  induction s with
  | nil => rfl
  | cons a rest ih =>
    have hpre : isPre old (a :: rest) = false := by
      by_contra hne
      exact hs (isPre_subset (eq_true_of_ne_false hne) c hc)
    rw [replAcc, hpre]
    simp only [Bool.and_false, Bool.false_eq_true, if_false]
    rw [ih (fun h => hs (List.mem_cons_of_mem _ h))]

/-- The replace skip counter consumes exactly the matched pattern. -/
theorem replAcc_skip (old new xs t : Str) :
    replAcc old new (xs ++ t) xs.length = replAcc old new t 0 := by
  induction xs with
  | nil => rfl
  | cons a rest ih => simp only [List.cons_append, List.length_cons, replAcc]; exact ih

/-- A pattern occurrence at the head is replaced. -/
theorem pyReplace_head {old : Str} (new rest : Str) (h : old ≠ []) :
    pyReplace old new (old ++ rest) = new ++ pyReplace old new rest := by
  cases old with
  | nil => exact absurd rfl h
  | cons c cs =>
    have hpre : isPre (c :: cs) (c :: (cs ++ rest)) = true := by
      have hp := isPre_append_self (c :: cs) rest
      simpa using hp
    show replAcc (c :: cs) new (c :: (cs ++ rest)) 0 = _
    rw [replAcc, hpre]
    simp only [List.isEmpty_cons, Bool.not_false, Bool.and_true, if_pos rfl]
    have h2 : (c :: cs).length - 1 = cs.length := rfl
    rw [h2, replAcc_skip (c :: cs) new cs rest]
    rfl

/-- A head character that starts no pattern occurrence is kept. -/
theorem pyReplace_cons_ne {old : Str} {a : Char} {s : Str} (new : Str)
    (h : isPre old (a :: s) = false) :
    pyReplace old new (a :: s) = a :: pyReplace old new s := by
  unfold pyReplace
  rw [replAcc, h]
  simp

/-- `replace` is the identity on `A ++ phrase` when no character of `A`
can start the pattern and some pattern character is missing from the
phrase. -/
theorem pyReplace_prefix_none (old : Str) {o : Char} {os : Str}
    (hold : old = o :: os) (new : Str) :
    ∀ A phrase : Str, (∀ a ∈ A, a ≠ o) → (∃ c ∈ old, c ∉ phrase) →
      pyReplace old new (A ++ phrase) = A ++ phrase := by
  intro A
  induction A with
  | nil =>
    intro phrase _ hex
    obtain ⟨c, hc, hcp⟩ := hex
    simpa using pyReplace_none (c := c) new hc hcp
  | cons a as ih =>
    intro phrase hA hex
    have ho : (o == a) = false :=
      beq_eq_false_iff_ne.mpr (Ne.symm (hA a (List.mem_cons_self _ _)))
    have hpre : isPre old (a :: (as ++ phrase)) = false := by
      rw [hold]
      simp [isPre, ho]
    rw [List.cons_append, pyReplace_cons_ne new hpre]
    rw [ih phrase (fun x hx => hA x (List.mem_cons_of_mem _ hx)) hex]

/-- The second and third localization replaces do not touch a target of
the form `"Kişi: " ++ phrase` with a colon-free phrase, so
`localizeTypes` maps `"PERSON: " ++ phrase` to `"Kişi: " ++ phrase`. -/
theorem localizeTypes_person (phrase : Str) (hcolon : ':' ∉ phrase) :
    localizeTypes (str "PERSON: " ++ phrase) = str "Kişi: " ++ phrase := by
  unfold localizeTypes
  rw [pyReplace_head (str "Kişi: ") phrase (by decide)]
  rw [pyReplace_none (c := ':') (str "Kişi: ") (by decide) hcolon]
  have hloc := pyReplace_prefix_none (str "LOCATION: ") rfl (str "Yer: ")
    (str "Kişi: ") phrase (by decide) ⟨':', by decide, hcolon⟩
  have horg := pyReplace_prefix_none (str "ORGANIZATION: ") rfl (str "Kuruluş: ")
    (str "Kişi: ") phrase (by decide) ⟨':', by decide, hcolon⟩
  rw [hloc, horg]

theorem getLastD_append_right (A : Str) {B : Str} (hB : B ≠ []) (d : Char) :
    (A ++ B).getLastD d = B.getLastD d := by
  rw [List.getLastD_eq_getLast?, List.getLastD_eq_getLast?,
    List.getLast?_append_of_ne_nil _ hB]

theorem getLastD_default_irrel {l : Str} (h : l ≠ []) (d d' : Char) :
    l.getLastD d = l.getLastD d' := by
  cases l with
  | nil => exact absurd rfl h
  | cons a rest => rw [List.getLastD_cons, List.getLastD_cons]

/-- A run of `O` tags keeps the idle Milliyet loop state unchanged. -/
theorem milliyet_fold_O (tokens tags : List Str) :
    ∀ (m j : Nat) (d : TagDict),
      (List.enumFrom j (List.replicate m (str "O"))).foldl
        (fun st p => milliyetStep tokens tags st p.1 p.2) ([], [], d)
      = ([], [], d) := by
  intro m
  induction m with
  | zero => intro j d; rfl
  | succ k ih =>
    intro j d
    simp only [List.replicate_succ, List.enumFrom, List.foldl_cons]
    have hstep : milliyetStep tokens tags ([], [], d) j (str "O") = ([], [], d) := rfl
    rw [hstep]
    exact ih (j + 1) d

/-- An `O` tag flushes a pending phrase into the tag dict. -/
theorem milliyetStep_O_flush (tokens tags : List Str) (ts ty : Str) (d : TagDict)
    (j : Nat) (hts : ts ≠ []) :
    milliyetStep tokens tags (ts, ty, d) j (str "O") = ([], [], dictAppend d ty ts) := by
  unfold milliyetStep
  rw [if_pos rfl, if_pos hts]

/-- Shared tail of the Milliyet serializer computation: once the tag loop
has produced a single-entry PERSON dict, the target is `"Kişi: "` followed
by the phrase. -/
theorem milliyet_target_of_dict (tokens tags : List Str)
    (st0 : Str × Str × TagDict) (phrase : Str)
    (hst : tags.enum.foldl
        (fun st p => milliyetStep tokens tags st p.1 p.2) ([], [], []) = st0)
    (hflush : (if st0.1 ≠ [] then dictAppend st0.2.2 st0.2.1 st0.1 else st0.2.2)
      = [(str "PERSON", [phrase])])
    (hcolon : ':' ∉ phrase) (hphrase : phrase ≠ [])
    (hws : isSpaceChar (phrase.getLastD '/') = false) :
    (milliyetPreprocessOne tokens tags).2 = str "Kişi: " ++ phrase := by
  rw [milliyetPreprocessOne]
  simp only [hst, hflush]
  have hrender : renderTagDict ([(str "PERSON", [phrase])].map
      (fun p => (p.1, pyDedup p.2))) = str "PERSON: " ++ phrase := rfl
  rw [hrender, localizeTypes_person _ hcolon]
  have hstrip : pyStrip (str "Kişi: " ++ phrase) = str "Kişi: " ++ phrase := by
    refine pyStrip_nop_d (by rfl) ?_
    rw [getLastD_append_right (str "Kişi: ") hphrase '/']
    exact hws
  rw [hstrip,
    if_neg (fun hcontra => hphrase (List.append_eq_nil.mp hcontra).2)]

/-- The Milliyet serializer on a sentence carrying exactly one two-token
PERSON entity at position `i`: the target is
`"Kişi: " ++ token[i] ++ " " ++ token[i+1]`. (The `I-` branch reads the
continuation token through `tags.index`, which resolves to `i + 1` here
because this is the only `I-PERSON` tag.) -/
theorem milliyetSingleEntity (tokens : List Str) (i m : Nat)
    (hcolon : ':' ∉ tokens.getD i [] ++ ' ' :: tokens.getD (i + 1) [])
    (hws : isSpaceChar
      ((tokens.getD i [] ++ ' ' :: tokens.getD (i + 1) []).getLastD '/') = false) :
    (milliyetPreprocessOne tokens
        (List.replicate i (str "O") ++ str "B-PERSON" :: str "I-PERSON"
          :: List.replicate m (str "O"))).2
      = str "Kişi: " ++ (tokens.getD i [] ++ ' ' :: tokens.getD (i + 1) []) := by
  set ti := tokens.getD i [] with hti_def
  set tj := tokens.getD (i + 1) [] with htj_def
  set tags := List.replicate i (str "O") ++ str "B-PERSON" :: str "I-PERSON"
    :: List.replicate m (str "O") with htags
  have hidx : pyIndexL (str "I-PERSON") tags = i + 1 := by
    rw [htags, pyIndexL_append _ (by
      intro hmem
      exact absurd (List.eq_of_mem_replicate hmem) (by decide))]
    rw [List.length_replicate, pyIndexL, if_neg (by decide), pyIndexL,
      if_pos rfl]
  have henum : tags.enum = (List.enumFrom 0 (List.replicate i (str "O")))
      ++ (i, str "B-PERSON") :: (i + 1, str "I-PERSON")
        :: List.enumFrom (i + 2) (List.replicate m (str "O")) := by
    rw [htags]
    show List.enumFrom 0 _ = _
    rw [enumFrom_append_eq]
    simp only [List.length_replicate, List.enumFrom, Nat.zero_add]
  have hne_phrase : (ti ++ ' ' :: tj : Str) ≠ [] := by simp
  cases m with
  | zero =>
    refine milliyet_target_of_dict tokens tags (ti ++ ' ' :: tj, str "PERSON", [])
      (ti ++ ' ' :: tj) ?_ ?_ hcolon hne_phrase hws
    · rw [henum, List.foldl_append, milliyet_fold_O tokens tags i 0 []]
      rw [List.foldl_cons]
      have hB : milliyetStep tokens tags ([], [], []) i (str "B-PERSON")
          = (tokens.getD i [], str "PERSON", []) := rfl
      rw [hB, List.foldl_cons]
      have hI : milliyetStep tokens tags (tokens.getD i [], str "PERSON", [])
          (i + 1) (str "I-PERSON")
          = (tokens.getD i []
              ++ ' ' :: tokens.getD (pyIndexL (str "I-PERSON") tags) [],
            str "PERSON", []) := rfl
      rw [hI, hidx, ← hti_def, ← htj_def]
      rfl
    · rw [if_pos hne_phrase]
      rfl
  | succ k =>
    refine milliyet_target_of_dict tokens tags
      ([], [], [(str "PERSON", [ti ++ ' ' :: tj])]) (ti ++ ' ' :: tj)
      ?_ ?_ hcolon hne_phrase hws
    · rw [henum, List.foldl_append, milliyet_fold_O tokens tags i 0 []]
      rw [List.foldl_cons]
      have hB : milliyetStep tokens tags ([], [], []) i (str "B-PERSON")
          = (tokens.getD i [], str "PERSON", []) := rfl
      rw [hB, List.foldl_cons]
      have hI : milliyetStep tokens tags (tokens.getD i [], str "PERSON", [])
          (i + 1) (str "I-PERSON")
          = (tokens.getD i []
              ++ ' ' :: tokens.getD (pyIndexL (str "I-PERSON") tags) [],
            str "PERSON", []) := rfl
      rw [hI, hidx, ← hti_def, ← htj_def]
      simp only [List.replicate_succ, List.enumFrom, List.foldl_cons]
      rw [milliyetStep_O_flush tokens tags _ _ [] (i + 2) hne_phrase]
      rw [milliyet_fold_O tokens tags k (i + 2 + 1) _]
      rfl
    · rw [if_neg (not_not_intro rfl)]

/-- Splitting `"Kişi: " ++ X` on `": "` for a colon-free `X`. -/
theorem split_colon_kisi (X : Str) (hX : ':' ∉ X) :
    pySplitOn (str ": ") (str "Kişi: " ++ X) = [str "Kişi", X] := by
  unfold pySplitOn
  rw [if_neg (by decide)]
  rw [show str "Kişi: " ++ X = 'K' :: 'i' :: 'ş' :: 'i' :: (str ": " ++ X) from rfl]
  have h1 : isPre (str ": ") ('K' :: ('i' :: 'ş' :: 'i' :: (str ": " ++ X))) = false := rfl
  rw [splitAcc_cons_ne h1 []]
  have h2 : isPre (str ": ") ('i' :: ('ş' :: 'i' :: (str ": " ++ X))) = false := rfl
  rw [splitAcc_cons_ne h2 _]
  have h3 : isPre (str ": ") ('ş' :: ('i' :: (str ": " ++ X))) = false := rfl
  rw [splitAcc_cons_ne h3 _]
  have h4 : isPre (str ": ") ('i' :: (str ": " ++ X)) = false := rfl
  rw [splitAcc_cons_ne h4 _]
  rw [splitAcc_sep_cons (str ": ") (by decide) X _]
  rw [splitAcc_none [] (show (':' : Char) ∈ str ": " by decide) hX]
  rfl

/-- The NER deserializer on a generated string `"Kişi: t1 t2"` with
clean, distinct tokens: the label list has one entry per space-split unit
of the generated string — `[0, 1, 2]`, begin code 1 at the unit holding
`t1`, continue code 2 at the unit holding `t2`. -/
theorem nerPostprocess_kisi (ti tj : Str)
    (hti : ti ≠ []) (htj : tj ≠ [])
    (hchar_i : ∀ c ∈ ti, isSpaceChar c = false ∧ c ≠ ',' ∧ c ≠ ':' ∧ c ≠ '|')
    (hchar_j : ∀ c ∈ tj, isSpaceChar c = false ∧ c ≠ ',' ∧ c ≠ ':' ∧ c ≠ '|')
    (hne : ti ≠ tj) :
    nerPostprocessOne (str "Kişi: " ++ (ti ++ ' ' :: tj)) = [0, 1, 2] := by
  have hsp_ti : ' ' ∉ ti := fun h => by
    have hc := (hchar_i ' ' h).1
    simp [isSpaceChar] at hc
  have hsp_tj : ' ' ∉ tj := fun h => by
    have hc := (hchar_j ' ' h).1
    simp [isSpaceChar] at hc
  have hcolonX : ':' ∉ ti ++ ' ' :: tj := by
    intro h
    rcases List.mem_append.mp h with h | h
    · exact (hchar_i ':' h).2.2.1 rfl
    · rcases List.mem_cons.mp h with h | h
      · exact absurd h (by decide)
      · exact (hchar_j ':' h).2.2.1 rfl
  have hcommaX : ',' ∉ ti ++ ' ' :: tj := by
    intro h
    rcases List.mem_append.mp h with h | h
    · exact (hchar_i ',' h).2.1 rfl
    · rcases List.mem_cons.mp h with h | h
      · exact absurd h (by decide)
      · exact (hchar_j ',' h).2.1 rfl
  have hpipe : '|' ∉ str "Kişi: " ++ (ti ++ ' ' :: tj) := by
    intro h
    rcases List.mem_append.mp h with h | h
    · exact absurd h (by decide)
    · rcases List.mem_append.mp h with h | h
      · exact (hchar_i '|' h).2.2.2 rfl
      · rcases List.mem_cons.mp h with h | h
        · exact absurd h (by decide)
        · exact (hchar_j '|' h).2.2.2 rfl
  have hws_j : isSpaceChar (tj.getLastD ' ') = false :=
    (hchar_j _ (getLastD_mem tj ' ' htj)).1
  have hstrip : pyStrip (str "Kişi: " ++ (ti ++ ' ' :: tj))
      = str "Kişi: " ++ (ti ++ ' ' :: tj) := by
    refine pyStrip_nop_d (by rfl) ?_
    rw [getLastD_append_right (str "Kişi: ") (by simp) '/',
      getLastD_append_right ti (by simp) '/', List.getLastD_cons]
    exact hws_j
  have hsp : pySplitOn (str " ") (str "Kişi: " ++ (ti ++ ' ' :: tj))
      = [str "Kişi:", ti, tj] := by
    rw [show (str " ") = ([' '] : Str) from rfl]
    rw [show str "Kişi: " ++ (ti ++ ' ' :: tj)
      = str "Kişi:" ++ ' ' :: (ti ++ ' ' :: tj) from rfl]
    rw [pySplitOn_single_append _ (by decide)]
    rw [pySplitOn_single_append _ hsp_ti]
    rw [pySplitOn_single_none hsp_tj]
  have hsent : str "Kişi: " ++ (ti ++ ' ' :: tj) ≠ str "Bulunamadı." := by
    intro he
    have hmem : (' ' : Char) ∈ str "Kişi: " ++ (ti ++ ' ' :: tj) := by
      rw [show str "Kişi: " ++ (ti ++ ' ' :: tj)
        = str "Kişi:" ++ ' ' :: (ti ++ ' ' :: tj) from rfl]
      exact List.mem_append_right _ (List.mem_cons_self _ _)
    rw [he] at hmem
    exact absurd hmem (by decide)
  have hpipe_split : pySplitOn (str " | ") (str "Kişi: " ++ (ti ++ ' ' :: tj))
      = [str "Kişi: " ++ (ti ++ ' ' :: tj)] :=
    pySplitOn_none (c := '|') (by decide) hpipe
  have hcolon_split := split_colon_kisi (ti ++ ' ' :: tj) hcolonX
  have hcomma_split : pySplitOn (str ", ") (ti ++ ' ' :: tj) = [ti ++ ' ' :: tj] :=
    pySplitOn_none (c := ',') (by decide) hcommaX
  have hstrip_phrase : pyStrip (ti ++ ' ' :: tj) = ti ++ ' ' :: tj := by
    refine pyStrip_nop_d ?_ ?_
    · cases ti with
      | nil => exact absurd rfl hti
      | cons a rest => exact (hchar_i a (List.mem_cons_self _ _)).1
    · rw [getLastD_append_right ti (by simp) '/', List.getLastD_cons]
      exact hws_j
  have hsp_phrase : pySplitOn (str " ") (ti ++ ' ' :: tj) = [ti, tj] := by
    rw [show (str " ") = ([' '] : Str) from rfl]
    rw [pySplitOn_single_append _ hsp_ti, pySplitOn_single_none hsp_tj]
  have hK_ti : str "Kişi:" ≠ ti := fun he =>
    (hchar_i ':' (he ▸ (by decide : (':' : Char) ∈ str "Kişi:"))).2.2.1 rfl
  have hK_tj : str "Kişi:" ≠ tj := fun he =>
    (hchar_j ':' (he ▸ (by decide : (':' : Char) ∈ str "Kişi:"))).2.2.1 rfl
  have hphrase_ne : pyStrip (ti ++ ' ' :: tj) ≠ [] := by
    rw [hstrip_phrase]
    simp
  rw [nerPostprocessOne]
  simp only [hstrip, hsp, hpipe_split]
  rw [if_neg hsent]
  rw [List.foldl_cons, List.foldl_nil]
  simp only [hcolon_split, List.headD_cons, List.getD_cons_succ, List.getD_cons_zero]
  rw [hcomma_split, List.foldl_cons, List.foldl_nil]
  rw [nerPhraseStep]
  rw [if_neg hphrase_ne]
  simp only [hsp_phrase, List.headD_cons, List.getLastD_cons, List.getLastD_nil]
  have hmem_ti : ti ∈ [str "Kişi:", ti, tj] :=
    List.mem_cons_of_mem _ (List.mem_cons_self _ _)
  have hmem_tj : tj ∈ [str "Kişi:", ti, tj] :=
    List.mem_cons_of_mem _ (List.mem_cons_of_mem _ (List.mem_cons_self _ _))
  rw [if_pos ⟨hmem_ti, hmem_tj⟩]
  rw [if_neg (by simp)]
  have hstart : pyIndexL ti [str "Kişi:", ti, tj] = 1 := by
    rw [pyIndexL, if_neg hK_ti, pyIndexL, if_pos rfl]
  have hfin : pyIndexL tj [str "Kişi:", ti, tj] = 2 := by
    rw [pyIndexL, if_neg hK_tj, pyIndexL, if_neg hne, pyIndexL, if_pos rfl]
  rw [hstart, hfin]
  have hlen3 : ([str "Kişi:", ti, tj] : List Str).length = 3 := rfl
  rw [hlen3]
  decide

/-- Claim C1, counterexample. The claim asserts that for every aligned
input on which the NER serializer produces a target, deserializing that
target restores each originally begin/continue-tagged token position to
its original integer code. For tokens `["Ali", "geldi"]` with tags
`["B-PERSON", "O"]` the Milliyet serializer emits `"Kişi: Ali"`, whose
deserialization is `[0, 1]` — indexed against the space-split units of
the generated string, so original position 0 (begin code 1 in the source
annotation) carries 0, not 1. -/
theorem c1_counterexample :
    (milliyetPreprocessOne [str "Ali", str "geldi"] [str "B-PERSON", str "O"]).2
      = str "Kişi: Ali"
    ∧ nerPostprocessOne (str "Kişi: Ali") = [0, 1]
    ∧ (nerPostprocessOne (str "Kişi: Ali")).getD 0 0 ≠ 1 := by
  refine ⟨by decide, by decide, by decide⟩

/-- Claim C1, amended: the deserializer reconstructs labels aligned to
the space-split units of the generated string, not to the input token
positions. For a Milliyet input carrying exactly one entity — a two-token
PERSON span at position `i` — with pairwise-distinct tokens free of
whitespace and of the separator characters `,` `:` `|`, the serializer
emits `"Kişi: token[i] token[i+1]"` and the deserializer reconstructs the
begin code `1 = 2*0+1` at the unit holding `token[i]` and the continue
code `2 = 2*0+2` at the unit holding `token[i+1]` (all other units 0):
the entity's begin/continue codes survive the round trip, but at
generated-string positions rather than source positions. -/
theorem c1_roundtrip (tokens : List Str) (i m : Nat)
    (hlen : tokens.length = i + 2 + m)
    (hnd : tokens.Nodup)
    (htok : ∀ t ∈ tokens, t ≠ []
      ∧ ∀ c ∈ t, isSpaceChar c = false ∧ c ≠ ',' ∧ c ≠ ':' ∧ c ≠ '|') :
    (milliyetPreprocessOne tokens
        (List.replicate i (str "O") ++ str "B-PERSON" :: str "I-PERSON"
          :: List.replicate m (str "O"))).2
      = str "Kişi: " ++ (tokens.getD i [] ++ ' ' :: tokens.getD (i + 1) [])
    ∧ nerPostprocessOne
        (str "Kişi: " ++ (tokens.getD i [] ++ ' ' :: tokens.getD (i + 1) []))
      = [0, 1, 2] := by
  have hi : i < tokens.length := by omega
  have hi1 : i + 1 < tokens.length := by omega
  have hti_mem : tokens.getD i [] ∈ tokens := by
    rw [List.getD_eq_getElem _ _ hi]
    exact List.getElem_mem hi
  have htj_mem : tokens.getD (i + 1) [] ∈ tokens := by
    rw [List.getD_eq_getElem _ _ hi1]
    exact List.getElem_mem hi1
  have hti := htok _ hti_mem
  have htj := htok _ htj_mem
  have hne : tokens.getD i [] ≠ tokens.getD (i + 1) [] := by
    rw [List.getD_eq_getElem _ _ hi, List.getD_eq_getElem _ _ hi1]
    intro he
    have hij := (List.Nodup.getElem_inj_iff hnd).mp he
    omega
  have hcolon : ':' ∉ tokens.getD i [] ++ ' ' :: tokens.getD (i + 1) [] := by
    intro h
    rcases List.mem_append.mp h with h | h
    · exact (hti.2 ':' h).2.2.1 rfl
    · rcases List.mem_cons.mp h with h | h
      · exact absurd h (by decide)
      · exact (htj.2 ':' h).2.2.1 rfl
  have hws : isSpaceChar
      ((tokens.getD i [] ++ ' ' :: tokens.getD (i + 1) []).getLastD '/')
      = false := by
    rw [getLastD_append_right _ (by simp) '/', List.getLastD_cons]
    exact (htj.2 _ (getLastD_mem _ ' ' htj.1)).1
  exact ⟨milliyetSingleEntity tokens i m hcolon hws,
    nerPostprocess_kisi _ _ hti.1 htj.1 hti.2 htj.2 hne⟩

/-- Witness for C1: the three-token sentence `Ali Veli geldi` with the
two-token PERSON entity `Ali Veli` at position 0. -/
theorem c1_witness :
    (milliyetPreprocessOne [str "Ali", str "Veli", str "geldi"]
        (List.replicate 0 (str "O") ++ str "B-PERSON" :: str "I-PERSON"
          :: List.replicate 1 (str "O"))).2
      = str "Kişi: " ++ (([str "Ali", str "Veli", str "geldi"].getD 0 [])
          ++ ' ' :: ([str "Ali", str "Veli", str "geldi"].getD 1 []))
    ∧ nerPostprocessOne (str "Kişi: "
        ++ (([str "Ali", str "Veli", str "geldi"].getD 0 [])
          ++ ' ' :: ([str "Ali", str "Veli", str "geldi"].getD 1 [])))
      = [0, 1, 2] :=
  c1_roundtrip [str "Ali", str "Veli", str "geldi"] 0 1 (by decide) (by decide)
    (by decide)

end TrTuner
